import Mathlib

/-!
Shallow embedding of `src/core/network_util.js` (pdf.js): extraction of a
filename from a Content-Disposition HTTP header.

A JavaScript string is modelled as a list of UTF-16 code units (`JStr`).
The browser's `TextDecoder` is an environment parameter (`TD`): a function
from an encoding label and a byte sequence to `Option` of the decoded
string (`none` models both "unrecognized encoding" and a fatal decode
error, the two exceptional cases the source catches).  All other JS
primitives used by the source (`unescape`, `escape`,
`decodeURIComponent`, `atob`, regular expressions, `String.prototype`
methods) are embedded concretely below with their ECMAScript semantics.
-/

/-- A JavaScript string: a list of UTF-16 code units. -/
abbrev JStr := List Nat

/-- Turn a Lean string literal (BMP characters only) into a `JStr`. -/
def jstr (s : String) : JStr := s.toList.map Char.toNat

/-- Character class of the JS regular-expression `\s` (whitespace). -/
def isJsSpace (c : Nat) : Bool :=
  c == 0x20 || c == 0x09 || c == 0x0A || c == 0x0B || c == 0x0C || c == 0x0D ||
  c == 0xA0 || c == 0x1680 || (decide (0x2000 ≤ c) && decide (c ≤ 0x200A)) ||
  c == 0x2028 || c == 0x2029 || c == 0x202F || c == 0x205F || c == 0x3000 || c == 0xFEFF

/-- ASCII lower-casing of one code unit (the `i` regexp flag on letters). -/
def lowerAscii (c : Nat) : Nat := if 65 ≤ c ∧ c ≤ 90 then c + 32 else c

/-- Hexadecimal digit test ([0-9a-fA-F]). -/
def isHexDigit (c : Nat) : Bool :=
  (decide (48 ≤ c) && decide (c ≤ 57)) || (decide (65 ≤ c) && decide (c ≤ 70)) ||
  (decide (97 ≤ c) && decide (c ≤ 102))

/-- Value of a hexadecimal digit. -/
def hexVal (c : Nat) : Nat := if c ≤ 57 then c - 48 else if c ≤ 70 then c - 55 else c - 87

/-- Decimal digit test (the regexp `\d`). -/
def isDigitN (c : Nat) : Bool := decide (48 ≤ c) && decide (c ≤ 57)

/-- ASCII letter or digit. -/
def isAlnum (c : Nat) : Bool :=
  (decide (65 ≤ c) && decide (c ≤ 90)) || (decide (97 ≤ c) && decide (c ≤ 122)) ||
  isDigitN c

/-- Character class of the regexp `[\w-]` (charset names in RFC 2047 words). -/
def isWordHyphen (c : Nat) : Bool := isAlnum c || c == 95 || c == 45

/-- Value of a decimal digit string (JS `parseInt(n, 10)` on an all-digit string). -/
def digitsToNat (ds : JStr) : Nat := ds.foldl (fun a c => a * 10 + (c - 48)) 0

/-- Worker for JS `unescape` (fuel = remaining length; one code unit is
consumed per step, so length fuel always suffices). -/
def jsUnescapeGo : Nat → JStr → JStr
  | 0, s => s
  | _ + 1, [] => []
  | fuel + 1, 37 :: rest =>
    match rest with
    | 117 :: a :: b :: c :: d :: rest2 =>
      if isHexDigit a && isHexDigit b && isHexDigit c && isHexDigit d then
        (hexVal a * 4096 + hexVal b * 256 + hexVal c * 16 + hexVal d) :: jsUnescapeGo fuel rest2
      else
        -- the `%uXXXX` form failed; the `%XX` form would need `u` to be a hex
        -- digit, which it is not, so `%` stays literal
        37 :: jsUnescapeGo fuel rest
    | a :: b :: rest2 =>
      if isHexDigit a && isHexDigit b then
        (hexVal a * 16 + hexVal b) :: jsUnescapeGo fuel rest2
      else 37 :: jsUnescapeGo fuel rest
    | _ => 37 :: jsUnescapeGo fuel rest
  | fuel + 1, c :: rest => c :: jsUnescapeGo fuel rest

/-- JS `unescape`: decode `%uXXXX` and `%XX` escape sequences (ECMAScript B.2.1.2). -/
def jsUnescape (s : JStr) : JStr := jsUnescapeGo s.length s

/-- Characters JS `escape` leaves unescaped (ECMAScript B.2.1.1). -/
def isEscapeSafe (c : Nat) : Bool :=
  isAlnum c || c == 64 || c == 42 || c == 95 || c == 43 || c == 45 || c == 46 || c == 47

/-- Upper-case hexadecimal digit of a value below 16. -/
def hexDigitU (n : Nat) : Nat := if n < 10 then 48 + n else 55 + n

/-- JS `escape` (ECMAScript B.2.1.1). -/
def jsEscape : JStr → JStr
  | [] => []
  | c :: rest =>
    if isEscapeSafe c then c :: jsEscape rest
    else if c < 256 then 37 :: hexDigitU (c / 16) :: hexDigitU (c % 16) :: jsEscape rest
    else 37 :: 117 :: hexDigitU (c / 4096) :: hexDigitU (c / 256 % 16) ::
         hexDigitU (c / 16 % 16) :: hexDigitU (c % 16) :: jsEscape rest

/-- Parse one `%XX` UTF-8 continuation byte (`10xxxxxx`) for `decodeURIComponent`. -/
def ducCont : JStr → Option (Nat × JStr)
  | 37 :: a :: b :: rest =>
    if isHexDigit a && isHexDigit b then
      let v := hexVal a * 16 + hexVal b
      if 128 ≤ v ∧ v ≤ 191 then some (v, rest) else none
    else none
  | _ => none

/-- Worker for `decodeURIComponent` (fuel = remaining length; one code unit is
consumed per step, so `s.length` fuel always suffices). `none` models the
`URIError` thrown on a malformed percent escape or invalid UTF-8. -/
def ducGo : Nat → JStr → Option JStr
  | 0, s => if s.isEmpty then some [] else none
  | _ + 1, [] => some []
  | fuel + 1, 37 :: rest =>
    match rest with
    | a :: b :: rest2 =>
      if isHexDigit a && isHexDigit b then
        let B := hexVal a * 16 + hexVal b
        if B < 128 then (ducGo fuel rest2).map (B :: ·)
        else if 192 ≤ B ∧ B ≤ 223 then
          match ducCont rest2 with
          | some (c1, r) =>
            let V := (B - 192) * 64 + (c1 - 128)
            if V < 128 then none else (ducGo fuel r).map (V :: ·)
          | none => none
        else if 224 ≤ B ∧ B ≤ 239 then
          match ducCont rest2 with
          | some (c1, r1) =>
            match ducCont r1 with
            | some (c2, r) =>
              let V := (B - 224) * 4096 + (c1 - 128) * 64 + (c2 - 128)
              if V < 2048 ∨ (55296 ≤ V ∧ V ≤ 57343) then none
              else (ducGo fuel r).map (V :: ·)
            | none => none
          | none => none
        else if 240 ≤ B ∧ B ≤ 247 then
          match ducCont rest2 with
          | some (c1, r1) =>
            match ducCont r1 with
            | some (c2, r2) =>
              match ducCont r2 with
              | some (c3, r) =>
                let V := (B - 240) * 262144 + (c1 - 128) * 4096 + (c2 - 128) * 64 + (c3 - 128)
                if V < 65536 ∨ 1114111 < V then none
                else (ducGo fuel r).map (fun t =>
                  (55296 + (V - 65536) / 1024) :: (56320 + (V - 65536) % 1024) :: t)
              | none => none
            | none => none
          | none => none
        else none
      else none
    | _ => none
  | fuel + 1, c :: rest => (ducGo fuel rest).map (c :: ·)

/-- JS `decodeURIComponent`: percent-decode and interpret as strict UTF-8;
`none` models the thrown `URIError`. -/
def jsDecodeURIComponent (s : JStr) : Option JStr := ducGo s.length s

/-- Base64 alphabet test. -/
def isB64Char (c : Nat) : Bool :=
  (decide (65 ≤ c) && decide (c ≤ 90)) || (decide (97 ≤ c) && decide (c ≤ 122)) ||
  isDigitN c || c == 43 || c == 47

/-- Value of a base64 alphabet character. -/
def b64Val (c : Nat) : Nat :=
  if c == 43 then 62 else if c == 47 then 63
  else if c ≤ 57 then c - 48 + 52 else if c ≤ 90 then c - 65 else c - 97 + 26

/-- Decode base64 characters in groups of four (trailing groups of two or
three characters yield one or two bytes, extra bits discarded). -/
def b64Chunks : JStr → Option JStr
  | [] => some []
  | a :: b :: c :: d :: rest =>
    (b64Chunks rest).map (fun t =>
      (b64Val a * 4 + b64Val b / 16) :: ((b64Val b % 16) * 16 + b64Val c / 4) ::
      ((b64Val c % 4) * 64 + b64Val d) :: t)
  | [a, b, c] => some [b64Val a * 4 + b64Val b / 16, (b64Val b % 16) * 16 + b64Val c / 4]
  | [a, b] => some [b64Val a * 4 + b64Val b / 16]
  | [_] => none

/-- Strip one trailing `=` if present. -/
def stripEq (t : JStr) : JStr :=
  match t.getLast? with
  | some 61 => t.dropLast
  | _ => t

/-- JS `atob` (the WHATWG forgiving-base64 decode); `none` models the thrown
`InvalidCharacterError`. -/
def atobDec (s : JStr) : Option JStr :=
  let t := s.filter (fun c => !(c == 9 || c == 10 || c == 12 || c == 13 || c == 32))
  let t := if t.length % 4 == 0 then stripEq (stripEq t) else t
  if t.length % 4 == 1 then none
  else if t.all isB64Char then b64Chunks t
  else none

/-- Strict UTF-8 decoding of a byte sequence into UTF-16 code units (used
only by the concrete `TextDecoder` instance `tdStd`). -/
def utf8DecGo : Nat → List Nat → Option JStr
  | 0, s => if s.isEmpty then some [] else none
  | _ + 1, [] => some []
  | fuel + 1, b :: rest =>
    if b < 128 then (utf8DecGo fuel rest).map (b :: ·)
    else if 192 ≤ b ∧ b ≤ 223 then
      match rest with
      | c1 :: r =>
        if 128 ≤ c1 ∧ c1 ≤ 191 then
          let V := (b - 192) * 64 + (c1 - 128)
          if V < 128 then none else (utf8DecGo fuel r).map (V :: ·)
        else none
      | _ => none
    else if 224 ≤ b ∧ b ≤ 239 then
      match rest with
      | c1 :: c2 :: r =>
        if (128 ≤ c1 ∧ c1 ≤ 191) ∧ (128 ≤ c2 ∧ c2 ≤ 191) then
          let V := (b - 224) * 4096 + (c1 - 128) * 64 + (c2 - 128)
          if V < 2048 ∨ (55296 ≤ V ∧ V ≤ 57343) then none
          else (utf8DecGo fuel r).map (V :: ·)
        else none
      | _ => none
    else if 240 ≤ b ∧ b ≤ 247 then
      match rest with
      | c1 :: c2 :: c3 :: r =>
        if (128 ≤ c1 ∧ c1 ≤ 191) ∧ (128 ≤ c2 ∧ c2 ≤ 191) ∧ (128 ≤ c3 ∧ c3 ≤ 191) then
          let V := (b - 240) * 262144 + (c1 - 128) * 4096 + (c2 - 128) * 64 + (c3 - 128)
          if V < 65536 ∨ 1114111 < V then none
          else (utf8DecGo fuel r).map (fun t =>
            (55296 + (V - 65536) / 1024) :: (56320 + (V - 65536) % 1024) :: t)
        else none
      | _ => none
    else none

/-- Strict UTF-8 decode of a byte list. -/
def utf8Decode (bytes : List Nat) : Option JStr := utf8DecGo bytes.length bytes

/-- The `TextDecoder` environment: an encoding label and a byte sequence to
an optionally decoded string.  `none` models both of the exceptions the
source catches: an unrecognized encoding label (constructor throw) and a
fatal decoding error. -/
abbrev TD := JStr → List Nat → Option JStr

/-- A `TextDecoder` environment in which construction always fails (the
source's comment mentions IE / Edge, where the API is unavailable). -/
def tdEmpty : TD := fun _ _ => none

/-- A concrete `TextDecoder` environment understanding utf-8 (strict) and
iso-8859-1, used to instantiate theorems at concrete inputs. -/
def tdStd : TD := fun enc bytes =>
  let l := enc.map lowerAscii
  if l == jstr "utf-8" || l == jstr "utf8" then utf8Decode bytes
  else if l == jstr "iso-8859-1" then some bytes
  else none

/-! ## The parameter-matching regular expression

`toParamRegExp(attributePattern, flags)` in the source builds
`(?:^|;)\s*ATTR\s*=\s*([^";\s][^;\s]*|"(?:[^"\\]|\\"?)+"?)`.
The functions below implement `exec` of that pattern: an anchored body
match, attempted at offset 0 (the `^` branch) and after every `;`. -/

/-- Case-insensitive literal match (the attribute name under the `i` flag);
returns the rest of the input after the literal. -/
def matchLitCI : JStr → JStr → Option JStr
  | [], s => some s
  | _, [] => none
  | p :: ps, c :: cs => if lowerAscii c == p then matchLitCI ps cs else none

/-- Consume the quoted-string group `(?:[^"\\]|\\"?)*` greedily: any
character other than `"` and `\`, or `\` optionally followed by `"`.
Returns the consumed text and the rest. -/
def quotedBodyGo : JStr → JStr × JStr
  | [] => ([], [])
  | 92 :: 34 :: rest =>
    let p := quotedBodyGo rest
    (92 :: 34 :: p.1, p.2)
  | 92 :: rest =>
    let p := quotedBodyGo rest
    (92 :: p.1, p.2)
  | 34 :: rest => ([], 34 :: rest)
  | c :: rest =>
    let p := quotedBodyGo rest
    (c :: p.1, p.2)

/-- Match the captured value `[^";\s][^;\s]*|"(?:[^"\\]|\\"?)+"?`:
a token, or a quoted string whose closing quote is optional.  Returns the
capture (quotes included) and the rest of the input. -/
def matchValue : JStr → Option (JStr × JStr)
  | [] => none
  | 34 :: rest =>
    let p := quotedBodyGo rest
    if p.1.isEmpty then none
    else
      match p.2 with
      | 34 :: r2 => some (34 :: (p.1 ++ [34]), r2)
      | r => some (34 :: p.1, r)
  | c :: rest =>
    if c == 59 || isJsSpace c then none
    else some (c :: rest.takeWhile (fun d => !(d == 59 || isJsSpace d)),
               rest.dropWhile (fun d => !(d == 59 || isJsSpace d)))

/-- The regexp body after the `(?:^|;)` anchor:
`\s* ATTR \s* = \s* (value)`, for a literal attribute pattern. -/
def paramBody (attr : JStr) (s : JStr) : Option (JStr × JStr) :=
  match matchLitCI attr (s.dropWhile isJsSpace) with
  | none => none
  | some s1 =>
    match s1.dropWhile isJsSpace with
    | 61 :: s2 => matchValue (s2.dropWhile isJsSpace)
    | _ => none

/-- Try the body after each `;` of the input, left to right. -/
def scanParam (attr : JStr) : JStr → Option (JStr × JStr)
  | [] => none
  | 59 :: rest =>
    match paramBody attr rest with
    | some r => some r
    | none => scanParam attr rest
  | _ :: rest => scanParam attr rest

/-- `toParamRegExp(attr, 'i').exec(s)`: earliest match of the anchored
pattern; the `^` alternative at offset 0, then after each `;`.  Returns the
capture and the rest of the input after the match. -/
def execParam (attr s : JStr) : Option (JStr × JStr) :=
  match paramBody attr s with
  | some r => some r
  | none => scanParam attr s

/-- One continuation-parameter match: the body of
`(?:^|;)\s*filename\*((?!0\d)\d+)(\*?)\s*=\s*(value)` after its anchor.
Returns the parsed index, the extended-form marker, the value capture and
the rest of the input. -/
def contBody (s : JStr) : Option (Nat × Bool × JStr × JStr) :=
  match matchLitCI (jstr "filename*") (s.dropWhile isJsSpace) with
  | none => none
  | some s1 =>
    let ds := s1.takeWhile isDigitN
    if ds.isEmpty then none
    else if ds.head? == some 48 && decide (2 ≤ ds.length) then none
    else
      let s2 := s1.dropWhile isDigitN
      let (quot, s3) := match s2 with
        | 42 :: r => (true, r)
        | r => (false, r)
      match s3.dropWhile isJsSpace with
      | 61 :: s4 =>
        match matchValue (s4.dropWhile isJsSpace) with
        | some (cap, rest) => some (digitsToNat ds, quot, cap, rest)
        | none => none
      | _ => none

/-- Try the continuation body after each `;`, left to right. -/
def contScan : JStr → Option (Nat × Bool × JStr × JStr)
  | [] => none
  | 59 :: rest =>
    match contBody rest with
    | some r => some r
    | none => contScan rest
  | _ :: rest => contScan rest

/-- Iterate the global continuation regexp from after the previous match
(fuel bounds the number of matches; every match consumes at least one code
unit, so the input length suffices). -/
def scanAllGo : Nat → JStr → List (Nat × Bool × JStr)
  | 0, _ => []
  | fuel + 1, s =>
    match contScan s with
    | none => []
    | some (n, q, p, rest) => (n, q, p) :: scanAllGo fuel rest

/-- All matches, in scan order, of the global continuation regexp
(`filename*n=` / `filename*n*=`), as the source's `while` loop sees them. -/
def rfc2231scanAll (contentDisposition : JStr) : List (Nat × Bool × JStr) :=
  match (match contBody contentDisposition with
         | some r => some r
         | none => contScan contentDisposition) with
  | none => []
  | some (n, q, p, rest) => (n, q, p) :: scanAllGo contentDisposition.length rest

/-! ## The decoding pipeline (source lines 83–231)

The per-invocation mutable `needsEncodingFixup` flag is threaded
explicitly: every function that may call `textdecode` takes the current
flag and returns the updated one. -/

/-- The `/^[\x00-\xFF]+$/` test of `textdecode`: nonempty and every code
unit is byte-ranged. -/
def bytesLike (v : JStr) : Bool := !v.isEmpty && v.all (fun c => decide (c ≤ 255))

/-- The `/^utf-?8$/i` test of `textdecode`. -/
def isUtf8Label (e : JStr) : Bool :=
  let l := e.map lowerAscii
  l == jstr "utf8" || l == jstr "utf-8"

/-- `textdecode(encoding, value)` (source lines 83–110): charset-directed
decoding of a byte-like string, clearing the fixup flag on success, with a
manual UTF-8 recovery path (`decodeURIComponent(escape(value))`) when the
`TextDecoder` path fails for a UTF-8 label. -/
def textdecode (td : TD) (encoding value : JStr) (flag : Bool) : JStr × Bool :=
  if encoding.isEmpty then (value, flag)
  else if !bytesLike value then (value, flag)
  else
    match td encoding value with
    | some decoded => (decoded, false)
    | none =>
      if isUtf8Label encoding then
        match jsDecodeURIComponent (jsEscape value) with
        | some v => (v, false)
        | none => (value, flag)
      else (value, flag)

/-- The `/[\x80-\xff]/` test of `fixupEncoding`. -/
def hasHighByte (v : JStr) : Bool := v.any (fun c => decide (128 ≤ c) && decide (c ≤ 255))

/-- `fixupEncoding(value)` (source lines 111–121): when the flag is still
set and the value contains a byte in 0x80–0xFF, try utf-8 and then fall
back to iso-8859-1. -/
def fixupEncoding (td : TD) (value : JStr) (flag : Bool) : JStr × Bool :=
  if flag && hasHighByte value then
    let p := textdecode td (jstr "utf-8") value flag
    if p.2 then textdecode td (jstr "iso-8859-1") p.1 p.2
    else p
  else (value, flag)

/-- Undo `\X` escape pairs (the `/\\(.)/g` replacement of `rfc2616unquote`). -/
def replaceEscPairs : JStr → JStr
  | 92 :: c :: rest => c :: replaceEscPairs rest
  | c :: rest => c :: replaceEscPairs rest
  | [] => []

/-- `value.slice(1).split('\\"')` of `rfc2616unquote`. -/
def splitEscQuote : JStr → List JStr
  | 92 :: 34 :: rest => [] :: splitEscQuote rest
  | c :: rest =>
    match splitEscQuote rest with
    | h :: t => (c :: h) :: t
    | [] => [[c]]
  | [] => [[]]

/-- The loop of `rfc2616unquote`: find the first piece containing an
unescaped `"`, truncate there (dropping later pieces), and undo escape
pairs in every kept piece. -/
def truncAtQuote : List JStr → List JStr
  | [] => []
  | p :: rest =>
    if p.contains 34 then [replaceEscPairs (p.takeWhile (fun c => !(c == 34)))]
    else replaceEscPairs p :: truncAtQuote rest

/-- `rfc2616unquote(value)` (source lines 160–175): tolerant quoted-string
stripping; a missing closing quote runs to the end of the value. -/
def rfc2616unquote (value : JStr) : JStr :=
  match value with
  | 34 :: rest => List.intercalate [34] (truncAtQuote (splitEscQuote rest))
  | _ => value

/-- `rfc5987decode(extvalue)` (source lines 176–190): split
`charset'language'value` at the apostrophes and decode the value with the
named charset; a value without any apostrophe is accepted leniently. -/
def rfc5987decode (td : TD) (extvalue : JStr) (flag : Bool) : JStr × Bool :=
  if extvalue.contains 39 then
    let encoding := extvalue.takeWhile (fun c => !(c == 39))
    let langvalue := (extvalue.dropWhile (fun c => !(c == 39))).tail
    let value := if langvalue.contains 39
                 then (langvalue.dropWhile (fun c => !(c == 39))).tail
                 else langvalue
    textdecode td encoding value flag
  else (extvalue, flag)

/-- The fast-reject test of `rfc2047decode` (source line 202): the whole
value must start with `=?` and contain no code unit in 0x00–0x19 or
0x80–0xFF. -/
def rfc2047reject (v : JStr) : Bool :=
  !(v.take 2 == [61, 63]) ||
  v.any (fun c => decide (c ≤ 25) || (decide (128 ≤ c) && decide (c ≤ 255)))

/-- Worker for the Q-encoding hex replacement (fuel = remaining length). -/
def qhexDecodeGo : Nat → JStr → JStr
  | 0, s => s
  | _ + 1, [] => []
  | fuel + 1, 61 :: rest =>
    match rest with
    | a :: b :: rest2 =>
      if isHexDigit a && isHexDigit b then (hexVal a * 16 + hexVal b) :: qhexDecodeGo fuel rest2
      else 61 :: qhexDecodeGo fuel rest
    | _ => 61 :: qhexDecodeGo fuel rest
  | fuel + 1, c :: rest => c :: qhexDecodeGo fuel rest

/-- The Q-encoding hex replacement `/=([0-9a-fA-F]{2})/g` of RFC 2047. -/
def qhexDecode (s : JStr) : JStr := qhexDecodeGo s.length s

/-- Consume the encoded-word payload `(?:[^?]|\?(?!=))*` up to and
including the closing `?=`; returns the payload and the rest. -/
def payloadGo : JStr → Option (JStr × JStr)
  | [] => none
  | 63 :: 61 :: rest => some ([], rest)
  | 63 :: rest => (payloadGo rest).map (fun pr => (63 :: pr.1, pr.2))
  | c :: rest => (payloadGo rest).map (fun pr => (c :: pr.1, pr.2))

/-- Match one RFC 2047 encoded word
`=\?([\w-]*)\?([QqBb])\?((?:[^?]|\?(?!=))*)\?=` at the head of the input;
returns charset, encoding letter, payload and the rest. -/
def matchWordAt (s : JStr) : Option (JStr × Nat × JStr × JStr) :=
  match s with
  | 61 :: 63 :: rest =>
    let cs := rest.takeWhile isWordHyphen
    match rest.dropWhile isWordHyphen with
    | 63 :: e :: 63 :: r2 =>
      if e == 81 || e == 113 || e == 66 || e == 98 then
        match payloadGo r2 with
        | some (p, rest2) => some (cs, e, p, rest2)
        | none => none
      else none
    | _ => none
  | _ => none

/-- The replacement callback of `rfc2047decode` for one encoded word:
Q-encoding (underscores to spaces, `=XX` pairs to bytes) or B-encoding
(best-effort base64), then charset-directed decoding. -/
def decodeWord (td : TD) (charset : JStr) (e : Nat) (text : JStr) (flag : Bool) :
    JStr × Bool :=
  if e == 113 || e == 81 then
    let text := text.map (fun c => if c == 95 then 32 else c)
    textdecode td charset (qhexDecode text) flag
  else
    let text := match atobDec text with
      | some t => t
      | none => text
    textdecode td charset text flag

/-- The global `replace` of `rfc2047decode`: scan left to right, replacing
every encoded word (fuel = remaining length; every step consumes at least
one code unit). -/
def replace2047Go (td : TD) : Nat → JStr → Bool → JStr × Bool
  | 0, s, flag => (s, flag)
  | _ + 1, [], flag => ([], flag)
  | fuel + 1, c :: rest, flag =>
    match matchWordAt (c :: rest) with
    | some (cs, e, p, after) =>
      let r := decodeWord td cs e p flag
      let r2 := replace2047Go td fuel after r.2
      (r.1 ++ r2.1, r2.2)
    | none =>
      let r2 := replace2047Go td fuel rest flag
      (c :: r2.1, r2.2)

/-- `rfc2047decode(value)` (source lines 191–228). -/
def rfc2047decode (td : TD) (value : JStr) (flag : Bool) : JStr × Bool :=
  if rfc2047reject value then (value, flag)
  else replace2047Go td value.length value flag

/-! ## Continuation collection and reassembly (source lines 122–159) -/

/-- One raw continuation match: index, extended-form marker, raw value. -/
abbrev ContMatch := Nat × Bool × JStr

/-- The first match with the given index (JS `matches[n]` after the
collection loop, which only assigns an index once). -/
def lookupIdx (ms : List ContMatch) (n : Nat) : Option (Bool × JStr) :=
  (ms.find? (fun m => m.1 == n)).map (fun m => m.2)

/-- JS `n in matches` on the collected sparse array. -/
def hasIdx (ms : List ContMatch) (n : Nat) : Bool := (lookupIdx ms n).isSome

/-- JS `matches.length` of the collected sparse array: one past the
largest assigned index. -/
def arrLength (ms : List ContMatch) : Nat := ms.foldr (fun m a => max (m.1 + 1) a) 0

/-- The collection `while` loop of `rfc2231getparam`: keep the first match
for each index; on a duplicate index 0, stop scanning entirely ("Ignore
anything after the invalid second filename*0"); on a duplicate positive
index, skip the match. -/
def rfc2231collectGo (acc : List ContMatch) : List ContMatch → List ContMatch
  | [] => acc
  | (n, q, p) :: rest =>
    if hasIdx acc n then
      if n == 0 then acc else rfc2231collectGo acc rest
    else rfc2231collectGo (acc ++ [(n, q, p)]) rest

/-- All continuation matches of the header, collected as the source's
`while` loop leaves `matches`. -/
def rfc2231collect (ms : List ContMatch) : List ContMatch := rfc2231collectGo [] ms

/-- Per-part decoding of the reassembly loop body: unquote, and for an
extended part percent-unescape and (at index 0 only) RFC 5987-decode. -/
def processPart (td : TD) (n : Nat) (q : Bool) (p : JStr) (flag : Bool) : JStr × Bool :=
  let part := rfc2616unquote p
  if q then
    let part := jsUnescape part
    if n == 0 then rfc5987decode td part flag else (part, flag)
  else (part, flag)

/-- The reassembly `for` loop: walk indices from `n` while the lookup
succeeds (a hole truncates), decoding and concatenating each part; `fuel`
is the number of remaining loop iterations (`matches.length - n`). -/
def reassembleGo (td : TD) (F : Nat → Option (Bool × JStr)) :
    Nat → Nat → Bool → JStr × Bool
  | 0, _, flag => ([], flag)
  | fuel + 1, n, flag =>
    match F n with
    | none => ([], flag)
    | some (q, p) =>
      let r := processPart td n q p flag
      let rest := reassembleGo td F fuel (n + 1) r.2
      (r.1 ++ rest.1, rest.2)

/-- The reassembly loop of `rfc2231getparam` over the collected matches:
`for (n = 0; n < matches.length; ++n)` with truncation at the first hole,
then `parts.join('')`. -/
def rfc2231assemble (td : TD) (ms : List ContMatch) (flag : Bool) : JStr × Bool :=
  reassembleGo td (lookupIdx ms) (arrLength ms) 0 flag

/-- `rfc2231getparam(contentDisposition)` (source lines 122–159). -/
def rfc2231getparam (td : TD) (contentDisposition : JStr) (flag : Bool) : JStr × Bool :=
  rfc2231assemble td (rfc2231collect (rfc2231scanAll contentDisposition)) flag

/-! ## Top-level orchestration (source lines 36–67 and 233–241) -/

/-- `getFilenameFromContentDispositionHeader` (source lines 36–67): the
three parameter forms in priority order, each ending in `fixupEncoding`.
The fixup flag starts true; note that a continuation attempt that
reassembles to the empty string still carries its flag into the plain
branch, exactly as the mutable variable does in the source. -/
def getFilenameFromContentDispositionHeader (td : TD) (contentDisposition : JStr) : JStr :=
  match execParam (jstr "filename*") contentDisposition with
  | some (cap, _) =>
    let filename := rfc2616unquote cap
    let filename := jsUnescape filename
    let p1 := rfc5987decode td filename true
    let p2 := rfc2047decode td p1.1 p1.2
    (fixupEncoding td p2.1 p2.2).1
  | none =>
    let pc := rfc2231getparam td contentDisposition true
    if !pc.1.isEmpty then
      let p2 := rfc2047decode td pc.1 pc.2
      (fixupEncoding td p2.1 p2.2).1
    else
      match execParam (jstr "filename") contentDisposition with
      | some (cap, _) =>
        let filename := rfc2616unquote cap
        let p2 := rfc2047decode td filename pc.2
        (fixupEncoding td p2.1 p2.2).1
      | none => []

/-- The `/\.pdf$/i` test of `extractFilenameFromHeader`. -/
def endsPdfCI (s : JStr) : Bool :=
  match s.reverse with
  | f :: d :: p :: dot :: _ =>
    dot == 46 && lowerAscii p == 112 && lowerAscii d == 100 && lowerAscii f == 102
  | _ => false

/-- `extractFilenameFromHeader(contentDisposition)` (source lines 233–241):
the public operation; `none` models both a missing header and the absent
result. -/
def extractFilenameFromHeader (td : TD) (contentDisposition : Option JStr) : Option JStr :=
  match contentDisposition with
  | none => none
  | some cd =>
    if cd.isEmpty then none
    else
      let filename := getFilenameFromContentDispositionHeader td cd
      if endsPdfCI filename then some filename else none

/-! ## Branch pipelines and spec-side variants

Named forms of the three branch pipelines of
`getFilenameFromContentDispositionHeader`, used to state the priority and
fixup claims, plus definitions that follow the specification's words where
they are to be compared against the source. -/

/-- The extended single-value (`filename*`) branch pipeline up to but not
including `fixupEncoding`: unquote, percent-unescape, RFC 5987 decode,
RFC 2047 decode.  Returns the value and the fixup flag. -/
def filenameStarPipe (td : TD) (cap : JStr) : JStr × Bool :=
  let filename := rfc2616unquote cap
  let filename := jsUnescape filename
  let p1 := rfc5987decode td filename true
  rfc2047decode td p1.1 p1.2

/-- The full extended single-value branch: the pipeline followed by
`fixupEncoding`. -/
def filenameStarBranch (td : TD) (cap : JStr) : JStr :=
  let p := filenameStarPipe td cap
  (fixupEncoding td p.1 p.2).1

/-- The continuation branch applied to a reassembled value and flag:
RFC 2047 decode followed by `fixupEncoding`. -/
def continuationBranch (td : TD) (v : JStr) (flag : Bool) : JStr :=
  let p := rfc2047decode td v flag
  (fixupEncoding td p.1 p.2).1

/-- The plain (`filename`) branch applied to a captured value and the
incoming flag: unquote, RFC 2047 decode, `fixupEncoding`. -/
def plainBranch (td : TD) (cap : JStr) (flag : Bool) : JStr :=
  let p := rfc2047decode td (rfc2616unquote cap) flag
  (fixupEncoding td p.1 p.2).1

/-- What the function computes once both extended forms have failed: the
plain `filename` parameter if present, else the empty (absent) result.
The flag argument is whatever the continuation attempt left behind. -/
def plainFallback (td : TD) (cd : JStr) (flag : Bool) : JStr :=
  match execParam (jstr "filename") cd with
  | some (cap, _) => plainBranch td cap flag
  | none => []

/-- Spec-side variant for claim C3 (follows the specification's words, not
the source): identical to `getFilenameFromContentDispositionHeader` except
that the Encoding Fixup stage is skipped on the extended single-value and
continuation branches, as §4.8 steps 3–4 of the specification describe. -/
def specSkipFixupGetFilename (td : TD) (contentDisposition : JStr) : JStr :=
  match execParam (jstr "filename*") contentDisposition with
  | some (cap, _) => (filenameStarPipe td cap).1
  | none =>
    let pc := rfc2231getparam td contentDisposition true
    if !pc.1.isEmpty then (rfc2047decode td pc.1 pc.2).1
    else
      match execParam (jstr "filename") contentDisposition with
      | some (cap, _) => plainBranch td cap pc.2
      | none => []

/-- Spec-side reassembly for claim C5 (follows the specification's words):
take, for each index, the FIRST raw match with that index; concatenate the
decoded parts in strictly increasing contiguous index order starting at 0,
stopping at the first missing index; the largest mentioned index bounds
the walk.  `lookupIdx` on the raw (uncollected) match list is exactly
"first occurrence of the index". -/
def specContinuationValue (td : TD) (ms : List ContMatch) (flag : Bool) : JStr × Bool :=
  reassembleGo td (lookupIdx ms) (arrLength ms) 0 flag

/-- The number of raw continuation matches with index 0. -/
def zeroCount (ms : List ContMatch) : Nat := (ms.filter (fun m => m.1 == 0)).length

/-! ## Lemmas about continuation collection -/

theorem lookupIdx_cons (k : Nat) (q : Bool) (p : JStr) (l : List ContMatch) (n : Nat) :
    lookupIdx ((k, q, p) :: l) n = if k == n then some (q, p) else lookupIdx l n := by
  by_cases h : (k == n) = true
  · simp [lookupIdx, List.find?_cons_of_pos, h]
  · simp only [Bool.not_eq_true] at h
    simp [lookupIdx, List.find?_cons_of_neg, h]

theorem lookupIdx_append (A B : List ContMatch) (n : Nat) :
    lookupIdx (A ++ B) n =
      match lookupIdx A n with
      | some v => some v
      | none => lookupIdx B n := by
  induction A with
  | nil => simp [lookupIdx]
  | cons m rest ih =>
    obtain ⟨k, q, p⟩ := m
    by_cases h : (k == n) = true
    · simp [lookupIdx_cons, h]
    · simp only [Bool.not_eq_true] at h
      simp [lookupIdx_cons, h, ih]

theorem lookupIdx_isSome_of_mem {l : List ContMatch} {n : Nat} {q : Bool} {p : JStr}
    (h : (n, q, p) ∈ l) : (lookupIdx l n).isSome = true := by
  induction l with
  | nil => cases h
  | cons m rest ih =>
    obtain ⟨k, q1, p1⟩ := m
    rw [lookupIdx_cons]
    by_cases hk : (k == n) = true
    · simp [hk]
    · simp only [Bool.not_eq_true] at hk
      rw [hk]
      rcases List.mem_cons.mp h with h1 | h1
      · cases h1
        simp at hk
      · exact ih h1

theorem mem_of_lookupIdx_some {l : List ContMatch} {n : Nat} {v : Bool × JStr}
    (h : lookupIdx l n = some v) : (n, v.1, v.2) ∈ l := by
  induction l with
  | nil => simp [lookupIdx] at h
  | cons m rest ih =>
    obtain ⟨k, q1, p1⟩ := m
    rw [lookupIdx_cons] at h
    by_cases hk : (k == n) = true
    · rw [if_pos hk] at h
      have hkn : k = n := eq_of_beq hk
      cases h
      subst hkn
      exact List.mem_cons_self _ _
    · simp only [Bool.not_eq_true] at hk
      rw [hk] at h
      simp only [Bool.false_eq_true, if_false] at h
      exact List.mem_cons_of_mem _ (ih h)

theorem le_arrLength {l : List ContMatch} {m : ContMatch} (h : m ∈ l) :
    m.1 + 1 ≤ arrLength l := by
  induction l with
  | nil => cases h
  | cons a rest ih =>
    rcases List.mem_cons.mp h with h1 | h1
    · subst h1; exact Nat.le_max_left _ _
    · exact Nat.le_trans (ih h1) (Nat.le_max_right _ _)

theorem arrLength_le {l : List ContMatch} {B : Nat} (h : ∀ m ∈ l, m.1 + 1 ≤ B) :
    arrLength l ≤ B := by
  induction l with
  | nil => exact Nat.zero_le B
  | cons a rest ih =>
    refine Nat.max_le.mpr ⟨h a (List.mem_cons_self _ _), ih ?_⟩
    intro m hm
    exact h m (List.mem_cons_of_mem _ hm)

theorem zeroCount_cons (k : Nat) (q : Bool) (p : JStr) (rest : List ContMatch) :
    zeroCount ((k, q, p) :: rest) = (if k == 0 then 1 else 0) + zeroCount rest := by
  by_cases h : (k == 0) = true
  · simp [zeroCount, List.filter_cons, h, Nat.add_comm]
  · simp only [Bool.not_eq_true] at h
    simp [zeroCount, List.filter_cons, h]

theorem collectGo_preserves {acc : List ContMatch} {n : Nat} {v : Bool × JStr}
    (ms : List ContMatch) (h : lookupIdx acc n = some v) :
    lookupIdx (rfc2231collectGo acc ms) n = some v := by
  induction ms generalizing acc with
  | nil => exact h
  | cons m rest ih =>
    obtain ⟨k, q1, p1⟩ := m
    by_cases hk : hasIdx acc k = true
    · by_cases hk0 : (k == 0) = true
      · simp [rfc2231collectGo, hk, hk0, h]
      · simp only [Bool.not_eq_true] at hk0
        simp only [rfc2231collectGo, hk, hk0, if_true, Bool.false_eq_true, if_false]
        exact ih h
    · simp only [Bool.not_eq_true] at hk
      simp only [rfc2231collectGo, hk, Bool.false_eq_true, if_false]
      refine ih ?_
      rw [lookupIdx_append, h]

theorem collectGo_lookup {ms : List ContMatch} {acc : List ContMatch} {n : Nat}
    (hz : zeroCount ms ≤ 1) (hacc : hasIdx acc 0 = true → zeroCount ms = 0)
    (hn : lookupIdx acc n = none) :
    lookupIdx (rfc2231collectGo acc ms) n = lookupIdx ms n := by
  induction ms generalizing acc with
  | nil => simpa [rfc2231collectGo, lookupIdx] using hn
  | cons m rest ih =>
    obtain ⟨k, q, p⟩ := m
    by_cases hk : hasIdx acc k = true
    · by_cases hk0 : (k == 0) = true
      · exfalso
        have hkz : k = 0 := eq_of_beq hk0
        subst hkz
        have h0 := hacc hk
        rw [zeroCount_cons] at h0
        simp at h0
      · simp only [Bool.not_eq_true] at hk0
        simp only [rfc2231collectGo, hk, if_true, hk0, Bool.false_eq_true, if_false]
        have hkn : (k == n) = false := by
          by_contra hc
          simp only [Bool.not_eq_false] at hc
          have : k = n := eq_of_beq hc
          subst this
          simp [hasIdx, hn] at hk
        rw [lookupIdx_cons, hkn]
        simp only [Bool.false_eq_true, if_false]
        refine ih ?_ ?_ hn
        · rw [zeroCount_cons, hk0] at hz
          simpa using hz
        · intro h0
          have := hacc h0
          rw [zeroCount_cons, hk0] at this
          simpa using this
    · simp only [Bool.not_eq_true] at hk
      simp only [rfc2231collectGo, hk, Bool.false_eq_true, if_false]
      by_cases hkn : (k == n) = true
      · have hkeq : k = n := eq_of_beq hkn
        subst hkeq
        have hsome : lookupIdx (acc ++ [(k, q, p)]) k = some (q, p) := by
          rw [lookupIdx_append]
          have : lookupIdx acc k = none := by
            by_contra hc
            rcases Option.ne_none_iff_exists.mp hc with ⟨v, hv⟩
            simp [hasIdx, ← hv] at hk
          rw [this, lookupIdx_cons]
          simp
        rw [collectGo_preserves rest hsome, lookupIdx_cons, hkn]
        simp
      · simp only [Bool.not_eq_true] at hkn
        rw [lookupIdx_cons, hkn]
        simp only [Bool.false_eq_true, if_false]
        have hn2 : lookupIdx (acc ++ [(k, q, p)]) n = none := by
          rw [lookupIdx_append, hn, lookupIdx_cons, hkn]
          simp [lookupIdx]
        refine ih ?_ ?_ hn2
        · refine Nat.le_trans ?_ hz
          rw [zeroCount_cons]
          exact Nat.le_add_left _ _
        · intro h0
          by_cases hk0 : (k == 0) = true
          · have : k = 0 := eq_of_beq hk0
            subst this
            rw [zeroCount_cons] at hz
            simpa using hz
          · simp only [Bool.not_eq_true] at hk0
            have hacc0 : hasIdx acc 0 = true := by
              unfold hasIdx at h0 ⊢
              rw [lookupIdx_append] at h0
              rcases hcase : lookupIdx acc 0 with _ | v
              · rw [hcase] at h0
                rw [lookupIdx_cons, hk0] at h0
                simp [lookupIdx] at h0
              · simp
            have := hacc hacc0
            rw [zeroCount_cons, hk0] at this
            simpa using this
      
theorem lookup_collect {ms : List ContMatch} (hz : zeroCount ms ≤ 1) (n : Nat) :
    lookupIdx (rfc2231collect ms) n = lookupIdx ms n := by
  refine collectGo_lookup hz ?_ ?_
  · intro h
    simp [hasIdx, lookupIdx] at h
  · simp [lookupIdx]

theorem arrLength_collect {ms : List ContMatch} (hz : zeroCount ms ≤ 1) :
    arrLength (rfc2231collect ms) = arrLength ms := by
  apply Nat.le_antisymm
  · refine arrLength_le ?_
    intro m hm
    obtain ⟨k, q, p⟩ := m
    have h1 : (lookupIdx (rfc2231collect ms) k).isSome = true := lookupIdx_isSome_of_mem hm
    rw [lookup_collect hz] at h1
    rcases Option.isSome_iff_exists.mp h1 with ⟨v, hv⟩
    simpa using le_arrLength (mem_of_lookupIdx_some hv)
  · refine arrLength_le ?_
    intro m hm
    obtain ⟨k, q, p⟩ := m
    have h1 : (lookupIdx ms k).isSome = true := lookupIdx_isSome_of_mem hm
    rw [← lookup_collect hz] at h1
    rcases Option.isSome_iff_exists.mp h1 with ⟨v, hv⟩
    simpa using le_arrLength (mem_of_lookupIdx_some hv)

theorem collectGo_stop (L1 : List ContMatch) (acc L2 : List ContMatch) (q : Bool) (p : JStr)
    (h : hasIdx (rfc2231collectGo acc L1) 0 = true) :
    rfc2231collectGo acc (L1 ++ (0, q, p) :: L2) = rfc2231collectGo acc L1 := by
  induction L1 generalizing acc with
  | nil =>
    simp only [rfc2231collectGo] at h ⊢
    simp [List.nil_append, rfc2231collectGo, h]
  | cons m rest ih =>
    obtain ⟨k, q1, p1⟩ := m
    by_cases hk : hasIdx acc k = true
    · by_cases hk0 : (k == 0) = true
      · simp only [List.cons_append, rfc2231collectGo, hk, if_true, hk0]
      · simp only [Bool.not_eq_true] at hk0
        simp only [List.cons_append, rfc2231collectGo, hk, if_true, hk0,
          Bool.false_eq_true, if_false] at h ⊢
        exact ih acc h
    · simp only [Bool.not_eq_true] at hk
      simp only [List.cons_append, rfc2231collectGo, hk, Bool.false_eq_true, if_false] at h ⊢
      exact ih _ h

/-! ## Claim theorems -/

/-- C5: for every list of raw continuation matches in which index 0 occurs
at most once, the value `rfc2231getparam` reassembles from them equals the
specification's description: concatenation in strictly increasing
contiguous index order starting at 0, stopping at the first missing index,
taking the FIRST match for a duplicated index `N > 0`, unquoting every
part, percent-unescaping extended parts, and RFC 5987-decoding the
charset/language prefix only at part 0 (`specContinuationValue`, whose
per-part decoding is `processPart`). -/
theorem rfc2231_reassembly_matches_spec (td : TD) (ms : List ContMatch) (flag : Bool)
    (hz : zeroCount ms ≤ 1) :
    rfc2231assemble td (rfc2231collect ms) flag = specContinuationValue td ms flag := by
  unfold rfc2231assemble specContinuationValue
  have hf : lookupIdx (rfc2231collect ms) = lookupIdx ms := funext (lookup_collect hz)
  rw [hf, arrLength_collect hz]

/-- Witness for C5 at a concrete match list: an extended part 0 with a
charset prefix, a duplicated index 1 (first occurrence kept), and a part
past a gap (index 3, discarded). -/
theorem rfc2231_reassembly_matches_spec_witness :
    rfc2231assemble tdStd
        (rfc2231collect
          [(0, true, jstr "utf-8''%41"), (1, false, jstr "b"),
           (1, false, jstr "zzz"), (3, false, jstr "gap")]) true =
      specContinuationValue tdStd
        [(0, true, jstr "utf-8''%41"), (1, false, jstr "b"),
         (1, false, jstr "zzz"), (3, false, jstr "gap")] true :=
  rfc2231_reassembly_matches_spec tdStd _ true (by decide)

/-- C4 (corrected): a duplicate `filename*0` does NOT abandon the whole
continuation result; the collection loop merely stops at the duplicate,
keeping everything collected before it, and that prefix is still
reassembled and returned. -/
theorem cont_dup_zero_truncates (L1 L2 : List ContMatch) (q : Bool) (p : JStr)
    (h : hasIdx (rfc2231collect L1) 0 = true) :
    rfc2231collect (L1 ++ (0, q, p) :: L2) = rfc2231collect L1 ∧
    ∀ (td : TD) (flag : Bool),
      rfc2231assemble td (rfc2231collect (L1 ++ (0, q, p) :: L2)) flag =
        rfc2231assemble td (rfc2231collect L1) flag := by
  have h1 : rfc2231collect (L1 ++ (0, q, p) :: L2) = rfc2231collect L1 :=
    collectGo_stop L1 [] L2 q p h
  exact ⟨h1, fun td flag => by rw [h1]⟩

/-- Witness for C4's amended theorem at a concrete list. -/
theorem cont_dup_zero_truncates_witness :
    rfc2231collect ([(0, false, jstr "foo.pdf")] ++ (0, false, jstr "bar") :: []) =
      rfc2231collect [(0, false, jstr "foo.pdf")] :=
  (cont_dup_zero_truncates [(0, false, jstr "foo.pdf")] [] false (jstr "bar")
    (by decide)).1

/-- C4 counterexample: with a duplicated `filename*0` the source returns
the continuation prefix collected before the duplicate ("foo.pdf"), and
does NOT fall through to the plain `filename` parameter ("plain.pdf") as
the claim asserts. -/
theorem cont_dup_zero_counterexample :
    getFilenameFromContentDispositionHeader tdEmpty
        (jstr "attachment; filename*0=foo.pdf; filename*0=bar; filename=plain.pdf") =
      jstr "foo.pdf" ∧ jstr "foo.pdf" ≠ jstr "plain.pdf" := by
  constructor
  · decide
  · decide

/-- C1: the public operation returns `none` on a missing or empty header,
only ever returns filenames ending in `.pdf` case-insensitively, and
returns `none` whenever the extracted filename fails that test even though
extraction itself succeeded. -/
theorem extract_pdf_filter (td : TD) :
    extractFilenameFromHeader td none = none ∧
    extractFilenameFromHeader td (some []) = none ∧
    (∀ cd f, extractFilenameFromHeader td (some cd) = some f → endsPdfCI f = true) ∧
    (∀ cd, endsPdfCI (getFilenameFromContentDispositionHeader td cd) = false →
      extractFilenameFromHeader td (some cd) = none) := by
  refine ⟨rfl, rfl, ?_, ?_⟩
  · intro cd f h
    simp only [extractFilenameFromHeader] at h
    by_cases hE : cd.isEmpty = true
    · rw [if_pos hE] at h
      cases h
    · rw [if_neg hE] at h
      by_cases hP : endsPdfCI (getFilenameFromContentDispositionHeader td cd) = true
      · rw [if_pos hP] at h
        cases h
        exact hP
      · rw [if_neg hP] at h
        cases h
  · intro cd h
    simp only [extractFilenameFromHeader]
    by_cases hE : cd.isEmpty = true
    · rw [if_pos hE]
    · rw [if_neg hE, if_neg (by rw [h]; exact Bool.false_ne_true)]

/-- Witness for C1 at a concrete header. -/
theorem extract_pdf_filter_witness : endsPdfCI (jstr "a.pdf") = true :=
  (extract_pdf_filter tdEmpty).2.2.1 (jstr "filename=a.pdf") (jstr "a.pdf") (by decide)

/-- C2: the three parameter forms are tried in strict priority order.
Whenever the `filename*` (extended single-value) pattern matches, the
result is its branch, regardless of any other parameters; the continuation
form is consulted only if `filename*` failed; the plain `filename` form
only if the continuation reassembly was empty.  In particular, if both a
`filename*` and a plain `filename` parameter are present, the `filename*`
value wins. -/
theorem filename_priority (td : TD) (cd : JStr) :
    (∀ cap rest, execParam (jstr "filename*") cd = some (cap, rest) →
      getFilenameFromContentDispositionHeader td cd = filenameStarBranch td cap) ∧
    (execParam (jstr "filename*") cd = none →
      (rfc2231getparam td cd true).1 ≠ [] →
      getFilenameFromContentDispositionHeader td cd =
        continuationBranch td (rfc2231getparam td cd true).1
          (rfc2231getparam td cd true).2) ∧
    (execParam (jstr "filename*") cd = none →
      (rfc2231getparam td cd true).1 = [] →
      ∀ cap rest, execParam (jstr "filename") cd = some (cap, rest) →
      getFilenameFromContentDispositionHeader td cd =
        plainBranch td cap (rfc2231getparam td cd true).2) := by
  refine ⟨?_, ?_, ?_⟩
  · intro cap rest h
    simp only [getFilenameFromContentDispositionHeader, h, filenameStarBranch,
      filenameStarPipe]
  · intro h1 h2
    have hE : (rfc2231getparam td cd true).1.isEmpty = false := by
      rcases hc : (rfc2231getparam td cd true).1 with _ | ⟨x, xs⟩
      · exact absurd hc h2
      · rfl
    simp only [getFilenameFromContentDispositionHeader, h1, hE, Bool.not_false,
      if_true, continuationBranch]
  · intro h1 h2 cap rest h3
    have hE : (rfc2231getparam td cd true).1.isEmpty = true := by
      rw [h2]; rfl
    simp only [getFilenameFromContentDispositionHeader, h1, hE, Bool.not_true,
      Bool.false_eq_true, if_false, h3, plainBranch]

/-- Witness for C2: a header carrying both a plain `filename` and a
`filename*` parameter resolves to the `filename*` branch. -/
theorem filename_priority_witness :
    getFilenameFromContentDispositionHeader tdEmpty
        (jstr "filename=plain.pdf; filename*=star.pdf") =
      filenameStarBranch tdEmpty (jstr "star.pdf") :=
  (filename_priority tdEmpty (jstr "filename=plain.pdf; filename*=star.pdf")).1
    (jstr "star.pdf") [] (by decide)

/-- C3 (corrected): Encoding Fixup is NOT skipped on the extended
single-value and continuation branches; the source applies
`fixupEncoding` as the final stage of every branch.  (It is frequently a
no-op there because a successful charset-directed decode clears the fixup
flag, but when that decode failed it does run.) -/
theorem fixup_applied_on_all_branches (td : TD) (cd : JStr) :
    (∀ cap rest, execParam (jstr "filename*") cd = some (cap, rest) →
      getFilenameFromContentDispositionHeader td cd =
        (fixupEncoding td (filenameStarPipe td cap).1 (filenameStarPipe td cap).2).1) ∧
    (execParam (jstr "filename*") cd = none →
      (rfc2231getparam td cd true).1 ≠ [] →
      getFilenameFromContentDispositionHeader td cd =
        (fixupEncoding td
          (rfc2047decode td (rfc2231getparam td cd true).1
            (rfc2231getparam td cd true).2).1
          (rfc2047decode td (rfc2231getparam td cd true).1
            (rfc2231getparam td cd true).2).2).1) := by
  constructor
  · intro cap rest h
    simp only [getFilenameFromContentDispositionHeader, h, filenameStarPipe]
  · intro h1 h2
    have hE : (rfc2231getparam td cd true).1.isEmpty = false := by
      rcases hc : (rfc2231getparam td cd true).1 with _ | ⟨x, xs⟩
      · exact absurd hc h2
      · rfl
    simp only [getFilenameFromContentDispositionHeader, h1, hE, Bool.not_false, if_true]

/-- Witness for C3's amended theorem: the extended single-value branch of
a concrete header ends in `fixupEncoding`. -/
theorem fixup_applied_on_all_branches_witness :
    getFilenameFromContentDispositionHeader tdStd
        (jstr "attachment; filename*=bogus'en'%e2%82%ac.pdf") =
      (fixupEncoding tdStd
        (filenameStarPipe tdStd (jstr "bogus'en'%e2%82%ac.pdf")).1
        (filenameStarPipe tdStd (jstr "bogus'en'%e2%82%ac.pdf")).2).1 :=
  (fixup_applied_on_all_branches tdStd
      (jstr "attachment; filename*=bogus'en'%e2%82%ac.pdf")).1
    (jstr "bogus'en'%e2%82%ac.pdf") [] (by decide)

/-- C3 counterexample: on a header whose extended single-value parameter
names an unknown charset with high-bit bytes, the source's result differs
from the specification's "skip Encoding Fixup on this branch" variant: the
fixup stage really runs and UTF-8-decodes the bytes to the euro sign. -/
theorem fixup_skipped_counterexample :
    getFilenameFromContentDispositionHeader tdStd
        (jstr "attachment; filename*=bogus'en'%e2%82%ac.pdf") ≠
      specSkipFixupGetFilename tdStd
        (jstr "attachment; filename*=bogus'en'%e2%82%ac.pdf") ∧
    getFilenameFromContentDispositionHeader tdStd
        (jstr "attachment; filename*=bogus'en'%e2%82%ac.pdf") = jstr "€.pdf" := by
  exact ⟨by decide, by decide⟩

/-- C10: when the extended single-value form fails and the continuation
form reassembles to the empty string, the empty string is treated exactly
like "no continuation parameters": control falls through to the plain
`filename` form, or to the absent result (`plainFallback`), carrying
whatever fixup flag the continuation attempt left. -/
theorem cont_empty_falls_through (td : TD) (cd : JStr)
    (h1 : execParam (jstr "filename*") cd = none)
    (h2 : (rfc2231getparam td cd true).1 = []) :
    getFilenameFromContentDispositionHeader td cd =
      plainFallback td cd (rfc2231getparam td cd true).2 := by
  have hE : (rfc2231getparam td cd true).1.isEmpty = true := by
    rw [h2]; rfl
  simp only [getFilenameFromContentDispositionHeader, h1, hE, Bool.not_true,
    Bool.false_eq_true, if_false, plainFallback]
  rcases hP : execParam (jstr "filename") cd with _ | ⟨cap, rest⟩
  · rfl
  · simp only [plainBranch]

/-- Witness for C10 at a concrete header whose continuation part 0
unquotes to the empty string: the plain parameter is used. -/
theorem cont_empty_falls_through_witness :
    getFilenameFromContentDispositionHeader tdStd
        (jstr "attachment; filename*0*=utf-8''; filename=pl.pdf") =
      plainFallback tdStd (jstr "attachment; filename*0*=utf-8''; filename=pl.pdf")
        (rfc2231getparam tdStd
          (jstr "attachment; filename*0*=utf-8''; filename=pl.pdf") true).2 :=
  cont_empty_falls_through tdStd _ (by decide) (by decide)

/-- C6: the Charset Decoder contract.  With an empty charset label the
value is returned unchanged; with any code unit outside the byte range the
value is returned unchanged; a successful charset-directed decode clears
the fixup flag; when the decoder fails and the label matches UTF-8
case/hyphen-insensitively, the `decodeURIComponent(escape(value))`
recovery path is attempted (clearing the flag on success); on total
failure the original value is returned with the flag untouched. -/
theorem textdecode_contract (td : TD) (e v : JStr) (flag : Bool) :
    (e = [] → textdecode td e v flag = (v, flag)) ∧
    ((∃ c ∈ v, 255 < c) → textdecode td e v flag = (v, flag)) ∧
    (e ≠ [] → bytesLike v = true → ∀ d, td e v = some d →
      textdecode td e v flag = (d, false)) ∧
    (e ≠ [] → bytesLike v = true → td e v = none → isUtf8Label e = true →
      textdecode td e v flag =
        (match jsDecodeURIComponent (jsEscape v) with
         | some r => (r, false)
         | none => (v, flag))) ∧
    (td e v = none → isUtf8Label e = false → textdecode td e v flag = (v, flag)) := by
  have hEmptyE : e = [] → e.isEmpty = true := fun h => by rw [h]; rfl
  have hNEmptyE : e ≠ [] → e.isEmpty = false := fun h => by
    rcases e with _ | ⟨x, xs⟩
    · exact absurd rfl h
    · rfl
  refine ⟨?_, ?_, ?_, ?_, ?_⟩
  · intro h
    simp only [textdecode, hEmptyE h, if_true]
  · intro h
    have hB : bytesLike v = false := by
      rcases h with ⟨c, hc, hgt⟩
      have : v.all (fun c => decide (c ≤ 255)) = false := by
        rw [← Bool.not_eq_true, List.all_eq_true]
        intro hall
        have := hall c hc
        simp at this
        omega
      simp [bytesLike, this]
    by_cases hEe : e.isEmpty = true
    · simp only [textdecode, hEe, if_true]
    · simp only [textdecode, hEe, Bool.false_eq_true, if_false, hB, Bool.not_false, if_true]
  · intro h1 h2 d h3
    simp only [textdecode, hNEmptyE h1, Bool.false_eq_true, if_false, h2,
      Bool.not_true, h3]
  · intro h1 h2 h3 h4
    simp only [textdecode, hNEmptyE h1, Bool.false_eq_true, if_false, h2,
      Bool.not_true, h3, h4, if_true]
  · intro h1 h2
    by_cases hEe : e.isEmpty = true
    · simp only [textdecode, hEe, if_true]
    · by_cases hB : bytesLike v = true
      · simp only [textdecode, hEe, Bool.false_eq_true, if_false, hB, Bool.not_true,
          h1, h2]
      · have hB2 : bytesLike v = false := Bool.eq_false_iff.mpr hB
        simp only [textdecode, hEe, Bool.false_eq_true, if_false, hB2, Bool.not_false,
          if_true]

/-- Witness for C6: conjunct 3 at a concrete decoder and value. -/
theorem textdecode_contract_witness :
    textdecode tdStd (jstr "utf-8") [65] true = ([65], false) :=
  (textdecode_contract tdStd (jstr "utf-8") [65] true).2.2.1 (by decide) (by decide)
    [65] (by decide)

/-- C8: the RFC 2047 decoder returns its input unchanged whenever the
whole value does not start with `=?` or contains any code unit in
0x00–0x19 or 0x80–0xFF; the test applies to the entire value. -/
theorem rfc2047_fast_reject (td : TD) (v : JStr) (flag : Bool)
    (h : ¬ v.take 2 = [61, 63] ∨ ∃ c ∈ v, c ≤ 25 ∨ (128 ≤ c ∧ c ≤ 255)) :
    rfc2047decode td v flag = (v, flag) := by
  have hR : rfc2047reject v = true := by
    rcases h with h | ⟨c, hc, hcc⟩
    · have : (v.take 2 == [61, 63]) = false := by
        rw [beq_eq_false_iff_ne]
        exact h
      simp [rfc2047reject, this]
    · have : v.any (fun c => decide (c ≤ 25) || (decide (128 ≤ c) && decide (c ≤ 255))) =
          true := by
        rw [List.any_eq_true]
        refine ⟨c, hc, ?_⟩
        rcases hcc with h1 | ⟨h1, h2⟩
        · simp [h1]
        · simp [h1, h2]
      simp [rfc2047reject, this]
  simp only [rfc2047decode, hR, if_true]

/-- Witness for C8: a value not starting with the encoded-word opener. -/
theorem rfc2047_fast_reject_witness :
    rfc2047decode tdEmpty (jstr "abc") true = (jstr "abc", true) :=
  rfc2047_fast_reject tdEmpty (jstr "abc") true (Or.inl (by decide))

/-- C9: the Encoding Fixup contract.  It is the identity whenever the
fixup flag is already cleared or the value contains no code unit in
0x80–0xFF (hence idempotent on such inputs); when it does act, it first
tries utf-8 and, if the flag is still set afterwards, falls back to
iso-8859-1. -/
theorem fixupEncoding_contract (td : TD) (v : JStr) (flag : Bool) :
    (flag = false → fixupEncoding td v flag = (v, flag)) ∧
    ((∀ c ∈ v, ¬(128 ≤ c ∧ c ≤ 255)) → fixupEncoding td v flag = (v, flag)) ∧
    (flag = true → (∃ c ∈ v, 128 ≤ c ∧ c ≤ 255) →
      fixupEncoding td v flag =
        (let p := textdecode td (jstr "utf-8") v flag
         if p.2 then textdecode td (jstr "iso-8859-1") p.1 p.2 else p)) ∧
    ((∀ c ∈ v, ¬(128 ≤ c ∧ c ≤ 255)) →
      fixupEncoding td (fixupEncoding td v flag).1 (fixupEncoding td v flag).2 =
        (v, flag)) := by
  have hHigh : (∀ c ∈ v, ¬(128 ≤ c ∧ c ≤ 255)) → hasHighByte v = false := by
    intro h
    rw [← Bool.not_eq_true, hasHighByte, List.any_eq_true]
    rintro ⟨c, hc, hcc⟩
    have := h c hc
    simp at hcc
    omega
  refine ⟨?_, ?_, ?_, ?_⟩
  · intro h
    simp [fixupEncoding, h]
  · intro h
    simp [fixupEncoding, hHigh h]
  · intro h1 h2
    have : hasHighByte v = true := by
      rcases h2 with ⟨c, hc, hc1, hc2⟩
      rw [hasHighByte, List.any_eq_true]
      exact ⟨c, hc, by simp [hc1, hc2]⟩
    simp [fixupEncoding, h1, this]
  · intro h
    have h1 : fixupEncoding td v flag = (v, flag) := by
      simp [fixupEncoding, hHigh h]
    rw [h1]
    exact h1

/-- Witness for C9: the identity conjunct at a concrete ASCII value. -/
theorem fixupEncoding_contract_witness :
    fixupEncoding tdEmpty (jstr "a") true = (jstr "a", true) :=
  (fixupEncoding_contract tdEmpty (jstr "a") true).2.1 (by decide)

theorem splitEscQuote_no_quote : ∀ {s : JStr}, 34 ∉ s → splitEscQuote s = [s] := by
  intro s
  induction s with
  | nil => intro _; rfl
  | cons c rest ih =>
    intro h
    have hc : c ≠ 34 := fun he => h (he ▸ List.mem_cons_self c rest)
    have hrest : 34 ∉ rest := fun hm => h (List.mem_cons_of_mem c hm)
    have ht : splitEscQuote rest = [rest] := ih hrest
    rw [splitEscQuote.eq_def]
    split
    · rename_i heq
      injection heq with h1 h2
      exact absurd (h2 ▸ List.mem_cons_self 34 _) hrest
    · rename_i c2 rest2 heq
      injection heq with h1 h2
      subst h1; subst h2
      rw [ht]
    · rename_i heq
      cases heq

/-- C7: no failure is raised to the caller; every internal failure mode
resolves to a fallback value.  The public operation is a total function of
the header for EVERY `TextDecoder` environment (including one that always
fails); an unknown charset leaves the bytes unchanged; a UTF-8 value whose
recovery path also fails is left unchanged; a bad base64 payload leaves
the encoded-word text as it was; a quoted string with no closing quote
runs to the end of the value. -/
theorem no_error_escapes (td : TD) :
    (∀ ocd, extractFilenameFromHeader td ocd = none ∨
      ∃ f, extractFilenameFromHeader td ocd = some f) ∧
    (∀ e v flag, td e v = none → isUtf8Label e = false →
      textdecode td e v flag = (v, flag)) ∧
    (∀ e v flag, td e v = none → isUtf8Label e = true →
      jsDecodeURIComponent (jsEscape v) = none → textdecode td e v flag = (v, flag)) ∧
    (∀ cs t flag, atobDec t = none →
      decodeWord td cs 98 t flag = textdecode td cs t flag) ∧
    (∀ s, 34 ∉ s → rfc2616unquote (34 :: s) = replaceEscPairs s) := by
  refine ⟨?_, ?_, ?_, ?_, ?_⟩
  · intro ocd
    rcases h : extractFilenameFromHeader td ocd with _ | f
    · exact Or.inl rfl
    · exact Or.inr ⟨f, rfl⟩
  · intro e v flag h1 h2
    by_cases hEe : e.isEmpty = true
    · simp only [textdecode, hEe, if_true]
    · by_cases hB : bytesLike v = true
      · simp only [textdecode, hEe, Bool.false_eq_true, if_false, hB, Bool.not_true,
          h1, h2]
      · have hB2 : bytesLike v = false := Bool.eq_false_iff.mpr hB
        simp only [textdecode, hEe, Bool.false_eq_true, if_false, hB2, Bool.not_false,
          if_true]
  · intro e v flag h1 h2 h3
    by_cases hEe : e.isEmpty = true
    · simp only [textdecode, hEe, if_true]
    · by_cases hB : bytesLike v = true
      · simp only [textdecode, hEe, Bool.false_eq_true, if_false, hB, Bool.not_true,
          h1, h2, if_true, h3]
      · have hB2 : bytesLike v = false := Bool.eq_false_iff.mpr hB
        simp only [textdecode, hEe, Bool.false_eq_true, if_false, hB2, Bool.not_false,
          if_true]
  · intro cs t flag h
    simp [decodeWord, h]
  · intro s h
    have hcont : s.contains 34 = false := by simpa using h
    simp only [rfc2616unquote, splitEscQuote_no_quote h, truncAtQuote, hcont,
      Bool.false_eq_true, if_false]
    simp [List.intercalate]

/-- Witness for C7: the bad-base64 conjunct at a concrete payload outside
the base64 alphabet. -/
theorem no_error_escapes_witness :
    decodeWord tdEmpty (jstr "x") 98 (jstr "!!!") true =
      textdecode tdEmpty (jstr "x") (jstr "!!!") true :=
  (no_error_escapes tdEmpty).2.2.2.1 (jstr "x") (jstr "!!!") true (by decide)

/-! ## Sanity checks of the embedding against the specification's test
vectors (§8 of the specification). -/

example :
    extractFilenameFromHeader tdStd (some (jstr "filename=\"a.pdf\"")) =
      some (jstr "a.pdf") := by decide

example :
    extractFilenameFromHeader tdStd
        (some (jstr "filename*0*=UTF-8''%e2%82%ac; filename*1=\" rates.pdf\"")) =
      some (jstr "€ rates.pdf") := by decide

example :
    extractFilenameFromHeader tdStd
        (some (jstr "filename=\"=?UTF-8?Q?r=C3=A9sum=C3=A9?=.pdf\"")) =
      some (jstr "résumé.pdf") := by decide

example :
    extractFilenameFromHeader tdStd (some (jstr "filename=\"notes.txt\"")) = none := by
  decide
